import Mathlib

set_option maxHeartbeats 1000000

/- Shallow embedding of the news-fact-checker backend
   (src/news-fact-checker/backend/server.js) for verification of the
   claim-verification pipeline: consensus engine, NLI fallback scorer,
   evidence retrieval, query building and credibility scoring. -/

/-- NLI score triple as produced by the scorers (the NliResult shape). -/
structure NliScore where
  entail : ℚ
  contra : ℚ
  neutral : ℚ
deriving DecidableEq

/-- A retrieved (or synthetic) news source record. `publishedAt` is the
publication time as a millisecond timestamp. -/
structure Source where
  title : String
  url : String
  publisher : Option String
  description : Option String
  content : Option String
  publishedAt : Int
deriving DecidableEq

/-- Closed verdict-label enumeration (every string returned by
`calculateWeightedConsensus`). -/
inductive Verdict where
  | strongly_supported
  | supported
  | weakly_supported
  | contested
  | insufficient_evidence
  | weakly_refuted
  | likely_false
  | refuted
deriving DecidableEq

/-- Reputable publisher allow-list (server.js line 702). -/
def reputableList : List String :=
  ["Reuters", "AP", "Bloomberg", "BBC", "CNN", "The Guardian", "NPR",
   "The New York Times", "The Washington Post"]

/-- Substring containment, mirroring `String.prototype.includes`. -/
def containsSubstr (hay needle : String) : Bool :=
  (List.range (hay.toList.length + 1)).any
    (fun i => needle.toList.isPrefixOf (hay.toList.drop i))

/-- `reputableSources.some(rs => source.publisher?.includes(rs))`
(server.js line 722); an absent publisher never matches. -/
def isReputableSource (s : Source) : Bool :=
  reputableList.any (fun rs =>
    match s.publisher with
    | some p => containsSubstr p rs
    | none => false)

/-- Weight of the source at index `i` of the source list: 1.5 for a
reputable publisher, 1.0 otherwise; a missing source (index out of range)
weighs 1.0 (server.js lines 721-723). -/
def weightAt (sources : List Source) (i : Nat) : ℚ :=
  match sources.get? i with
  | some src => if isReputableSource src then 3/2 else 1
  | none => 1

/-- A score is counted as valid unless it is the exact all-zero triple
(server.js line 716). -/
def validNli (s : NliScore) : Bool :=
  if s.entail = 0 ∧ s.contra = 0 ∧ s.neutral = 0 then false else true

/-- Ordered threshold classification applied to the weighted entail/contra
means (server.js lines 741-776). -/
def classifyVerdict (avgEntail avgContra : ℚ) : Verdict :=
  if avgEntail ≥ 0.35 ∧ avgContra ≤ 0.15 then .strongly_supported
  else if avgEntail ≥ 0.25 ∧ avgContra ≤ 0.20 then .supported
  else if avgContra ≥ 0.35 ∧ avgEntail ≤ 0.15 then .refuted
  else if avgContra ≥ 0.25 ∧ avgEntail ≤ 0.20 then .likely_false
  else if avgEntail > avgContra * 1.5 ∧ avgEntail > 0.15 then .supported
  else if avgContra > avgEntail * 1.5 ∧ avgContra > 0.15 then .likely_false
  else if |avgEntail - avgContra| ≤ 0.1 then .contested
  else if avgEntail > avgContra ∧ avgEntail > 0.1 then .weakly_supported
  else if avgContra > avgEntail ∧ avgContra > 0.1 then .weakly_refuted
  else .insufficient_evidence

/-- The classification of the specification text, stated from its words:
entail≥0.35 and contra≤0.15 gives strongly_supported; entail≥0.25 and
contra≤0.20 gives supported; contra≥0.35 and entail≤0.15 gives refuted;
contra≥0.25 and entail≤0.20 gives likely_false; else if one side exceeds
the other by at least 1.5 times (the ratio tier is a non-strict ≥, as the
specification writes ≥1.5×) and exceeds 0.15, supported or likely_false
accordingly; else if the means differ by at most 0.10, contested; else a
weak majority above 0.10 gives weakly_supported or weakly_refuted; else
insufficient_evidence. -/
def claimThresholdClassify (avgEntail avgContra : ℚ) : Verdict :=
  if avgEntail ≥ 0.35 ∧ avgContra ≤ 0.15 then .strongly_supported
  else if avgEntail ≥ 0.25 ∧ avgContra ≤ 0.20 then .supported
  else if avgContra ≥ 0.35 ∧ avgEntail ≤ 0.15 then .refuted
  else if avgContra ≥ 0.25 ∧ avgEntail ≤ 0.20 then .likely_false
  else if avgEntail ≥ avgContra * 1.5 ∧ avgEntail > 0.15 then .supported
  else if avgContra ≥ avgEntail * 1.5 ∧ avgContra > 0.15 then .likely_false
  else if |avgEntail - avgContra| ≤ 0.1 then .contested
  else if avgEntail > avgContra ∧ avgEntail > 0.1 then .weakly_supported
  else if avgContra > avgEntail ∧ avgContra > 0.1 then .weakly_refuted
  else .insufficient_evidence

/-- The classification of the amended claim, stated from its words: the
same ordered checks, with the ratio tier strict — one side exceeds the
other by more than 1.5 times (and exceeds 0.15) — as the code compares
with a strict greater-than. Changed from `claimThresholdClassify` only in
the two ratio comparisons, which is what the counterexample forces. -/
def amendedThresholdClassify (avgEntail avgContra : ℚ) : Verdict :=
  if avgEntail ≥ 0.35 ∧ avgContra ≤ 0.15 then .strongly_supported
  else if avgEntail ≥ 0.25 ∧ avgContra ≤ 0.20 then .supported
  else if avgContra ≥ 0.35 ∧ avgEntail ≤ 0.15 then .refuted
  else if avgContra ≥ 0.25 ∧ avgEntail ≤ 0.20 then .likely_false
  else if avgEntail > avgContra * 1.5 ∧ avgEntail > 0.15 then .supported
  else if avgContra > avgEntail * 1.5 ∧ avgContra > 0.15 then .likely_false
  else if |avgEntail - avgContra| ≤ 0.1 then .contested
  else if avgEntail > avgContra ∧ avgEntail > 0.1 then .weakly_supported
  else if avgContra > avgEntail ∧ avgContra > 0.1 then .weakly_refuted
  else .insufficient_evidence

/-- One step of the score accumulation loop of `calculateWeightedConsensus`
(server.js lines 714-728): skips invalid scores, otherwise accumulates
weighted entail, weighted contra, total weight and the valid count. -/
def consensusStep (sources : List Source) (acc : ℚ × ℚ × ℚ × Nat)
    (p : Nat × NliScore) : ℚ × ℚ × ℚ × Nat :=
  if validNli p.2 then
    (acc.1 + p.2.entail * weightAt sources p.1,
     acc.2.1 + p.2.contra * weightAt sources p.1,
     acc.2.2.1 + weightAt sources p.1,
     acc.2.2.2 + 1)
  else acc

/-- The full accumulation over an indexed score list. -/
def consensusFold (scores : List NliScore) (sources : List Source) :
    ℚ × ℚ × ℚ × Nat :=
  scores.enum.foldl (consensusStep sources) (0, 0, 0, 0)

/-- `calculateWeightedConsensus` (server.js lines 701-777). -/
def calculateWeightedConsensus (scores : List NliScore)
    (sources : List Source) : Verdict :=
  if scores.isEmpty then .insufficient_evidence
  else
    let st := consensusFold scores sources
    if st.2.2.2 < 2 ∨ st.2.2.1 = 0 then .insufficient_evidence
    else classifyVerdict (st.1 / st.2.2.1) (st.2.1 / st.2.2.1)

/-- The indexed scores that the accumulation loop does not skip. -/
def validEnum (scores : List NliScore) : List (Nat × NliScore) :=
  scores.enum.filter (fun p => validNli p.2)

/-- Number of valid (non-degenerate) scores. -/
def countValid (scores : List NliScore) : Nat :=
  (validEnum scores).length

/-- Weighted entail sum over the valid scores. -/
def sumWE (scores : List NliScore) (sources : List Source) : ℚ :=
  ((validEnum scores).map (fun p => p.2.entail * weightAt sources p.1)).sum

/-- Weighted contra sum over the valid scores. -/
def sumWC (scores : List NliScore) (sources : List Source) : ℚ :=
  ((validEnum scores).map (fun p => p.2.contra * weightAt sources p.1)).sum

/-- Total weight over the valid scores. -/
def sumW (scores : List NliScore) (sources : List Source) : ℚ :=
  ((validEnum scores).map (fun p => weightAt sources p.1)).sum

/-- The weighted entail mean `avgEntail` (server.js line 735). -/
def weightedEntailAvg (scores : List NliScore) (sources : List Source) : ℚ :=
  sumWE scores sources / sumW scores sources

/-- The weighted contra mean `avgContra` (server.js line 736). -/
def weightedContraAvg (scores : List NliScore) (sources : List Source) : ℚ :=
  sumWC scores sources / sumW scores sources

theorem consensusFold_aux (sources : List Source)
    (l : List (Nat × NliScore)) (a b c : ℚ) (d : Nat) :
    l.foldl (consensusStep sources) (a, b, c, d) =
      (a + ((l.filter (fun p => validNli p.2)).map
              (fun p => p.2.entail * weightAt sources p.1)).sum,
       b + ((l.filter (fun p => validNli p.2)).map
              (fun p => p.2.contra * weightAt sources p.1)).sum,
       c + ((l.filter (fun p => validNli p.2)).map
              (fun p => weightAt sources p.1)).sum,
       d + (l.filter (fun p => validNli p.2)).length) := by
  induction l generalizing a b c d with
  | nil => simp
  | cons x xs ih =>
    by_cases hx : validNli x.2
    · simp only [List.foldl_cons, consensusStep, hx, if_true,
        List.filter_cons, List.map_cons, List.sum_cons, List.length_cons, ih]
      refine Prod.ext ?_ (Prod.ext ?_ (Prod.ext ?_ ?_)) <;> simp <;> ring
    · simp only [List.foldl_cons, consensusStep, hx, if_false,
        List.filter_cons, ih]
      simp [hx]

theorem consensusFold_eq (scores : List NliScore) (sources : List Source) :
    consensusFold scores sources =
      (sumWE scores sources, sumWC scores sources, sumW scores sources,
       countValid scores) := by
  have h := consensusFold_aux sources scores.enum 0 0 0 0
  simp only [zero_add, Nat.zero_add] at h
  simpa [consensusFold, sumWE, sumWC, sumW, countValid, validEnum] using h

theorem weightAt_ge_one (sources : List Source) (i : Nat) :
    1 ≤ weightAt sources i := by
  unfold weightAt
  cases sources.get? i with
  | none => norm_num
  | some src => dsimp only; split <;> norm_num

theorem countValid_le_sumW (scores : List NliScore) (sources : List Source) :
    (countValid scores : ℚ) ≤ sumW scores sources := by
  unfold countValid sumW
  induction validEnum scores with
  | nil => simp
  | cons x xs ih =>
    simp only [List.length_cons, List.map_cons, List.sum_cons]
    have := weightAt_ge_one sources x.1
    push_cast
    linarith

theorem countValid_le_length (scores : List NliScore) :
    countValid scores ≤ scores.length := by
  calc countValid scores ≤ scores.enum.length := List.length_filter_le _ _
  _ = scores.length := List.enum_length

/-- Three identical NLI scores with entail 0.40 and contra 0.05. -/
def exThreeScores : List NliScore :=
  [⟨0.40, 0.05, 0.55⟩, ⟨0.40, 0.05, 0.55⟩, ⟨0.40, 0.05, 0.55⟩]

/-- Three reputable sources (publisher on the allow-list). -/
def exThreeReputable : List Source :=
  [⟨"t1", "https://a.example/1", some "Reuters", none, none, 0⟩,
   ⟨"t2", "https://a.example/2", some "BBC", none, none, 0⟩,
   ⟨"t3", "https://a.example/3", some "NPR", none, none, 0⟩]

theorem countValid_pos_ne_nil {scores : List NliScore}
    (h : 0 < countValid scores) : scores.isEmpty = false := by
  rcases scores with _ | ⟨x, xs⟩
  · simp [countValid, validEnum] at h
  · rfl

/-- Two equal valid scores over no sources (unit weights), realizing the
weighted means entail 0.24 and contra 0.16. -/
def cexC1Scores : List NliScore := [⟨0.24, 0.16, 0.6⟩, ⟨0.24, 0.16, 0.6⟩]

/-- Counterexample to C1 as stated: at weighted means 0.24/0.16, produced
from 2 valid scores, the claim's documented ordered checks — with the
ratio tier read as "at least 1.5×", i.e. 0.24 ≥ 1.5·0.16 and 0.24 > 0.15 —
give `supported`, while `calculateWeightedConsensus` compares strictly,
falls through to the |entail−contra| ≤ 0.10 tier and returns `contested`. -/
theorem c1_counterexample :
    2 ≤ countValid cexC1Scores
    ∧ weightedEntailAvg cexC1Scores [] = 0.24
    ∧ weightedContraAvg cexC1Scores [] = 0.16
    ∧ claimThresholdClassify (weightedEntailAvg cexC1Scores [])
        (weightedContraAvg cexC1Scores []) = .supported
    ∧ calculateWeightedConsensus cexC1Scores [] = .contested
    ∧ Verdict.supported ≠ Verdict.contested := by
  have w : ∀ i, weightAt [] i = 1 := fun i => rfl
  have cv : countValid cexC1Scores = 2 := by
    norm_num [countValid, validEnum, cexC1Scores, validNli, List.enum,
      List.enumFrom, List.filter]
  have hWE : sumWE cexC1Scores [] = 12/25 := by
    norm_num [sumWE, validEnum, cexC1Scores, validNli, List.enum,
      List.enumFrom, List.filter, w]
  have hWC : sumWC cexC1Scores [] = 8/25 := by
    norm_num [sumWC, validEnum, cexC1Scores, validNli, List.enum,
      List.enumFrom, List.filter, w]
  have hW : sumW cexC1Scores [] = 2 := by
    norm_num [sumW, validEnum, cexC1Scores, validNli, List.enum,
      List.enumFrom, List.filter, w]
  have hAvgE : weightedEntailAvg cexC1Scores [] = 0.24 := by
    rw [weightedEntailAvg, hWE, hW]
    norm_num
  have hAvgC : weightedContraAvg cexC1Scores [] = 0.16 := by
    rw [weightedContraAvg, hWC, hW]
    norm_num
  have habs : |(0.24 : ℚ) - 0.16| ≤ 0.1 := by
    rw [abs_of_nonneg (by norm_num : (0 : ℚ) ≤ 0.24 - 0.16)]
    norm_num
  have hclaim : claimThresholdClassify 0.24 0.16 = .supported := by
    unfold claimThresholdClassify
    rw [if_neg (by norm_num), if_neg (by norm_num), if_neg (by norm_num),
      if_neg (by norm_num), if_pos (by norm_num)]
  have hcode : classifyVerdict 0.24 0.16 = .contested := by
    unfold classifyVerdict
    rw [if_neg (by norm_num), if_neg (by norm_num), if_neg (by norm_num),
      if_neg (by norm_num), if_neg (by norm_num), if_neg (by norm_num),
      if_pos habs]
  have hcons : calculateWeightedConsensus cexC1Scores [] = .contested := by
    unfold calculateWeightedConsensus
    rw [show cexC1Scores.isEmpty = false from rfl]
    simp only [Bool.false_eq_true, if_false, consensusFold_eq]
    rw [if_neg (by rw [cv, hW]; norm_num)]
    show classifyVerdict (weightedEntailAvg cexC1Scores [])
        (weightedContraAvg cexC1Scores []) = .contested
    rw [hAvgE, hAvgC, hcode]
  refine ⟨by omega, hAvgE, hAvgC, ?_, hcons, by decide⟩
  rw [hAvgE, hAvgC, hclaim]

/-- Claim C1 (amended): whenever at least 2 valid scores are present,
`calculateWeightedConsensus` classifies the weighted entail/contra means by
the ordered threshold checks with the ratio tier strict (one side exceeds
the other by more than 1.5× and exceeds 0.15); the concrete pair of means
0.40/0.05 over 3 reputable sources yields `strongly_supported`; and the
classification is deterministic given identical weighted means. -/
theorem c1_consensus_classification :
    (∀ (scores : List NliScore) (sources : List Source),
        2 ≤ countValid scores →
        calculateWeightedConsensus scores sources =
          amendedThresholdClassify (weightedEntailAvg scores sources)
            (weightedContraAvg scores sources))
    ∧ (calculateWeightedConsensus exThreeScores exThreeReputable =
          .strongly_supported
        ∧ weightedEntailAvg exThreeScores exThreeReputable = 0.40
        ∧ weightedContraAvg exThreeScores exThreeReputable = 0.05)
    ∧ (∀ (s1 : List NliScore) (σ1 : List Source)
          (s2 : List NliScore) (σ2 : List Source),
        2 ≤ countValid s1 → 2 ≤ countValid s2 →
        weightedEntailAvg s1 σ1 = weightedEntailAvg s2 σ2 →
        weightedContraAvg s1 σ1 = weightedContraAvg s2 σ2 →
        calculateWeightedConsensus s1 σ1 =
          calculateWeightedConsensus s2 σ2) := by
  have main : ∀ (scores : List NliScore) (sources : List Source),
      2 ≤ countValid scores →
      calculateWeightedConsensus scores sources =
        amendedThresholdClassify (weightedEntailAvg scores sources)
          (weightedContraAvg scores sources) := by
    intro scores sources h
    have hne : scores.isEmpty = false :=
      countValid_pos_ne_nil (lt_of_lt_of_le (by norm_num) h)
    have hW : (2 : ℚ) ≤ sumW scores sources := by
      calc (2 : ℚ) ≤ (countValid scores : ℚ) := by exact_mod_cast h
      _ ≤ sumW scores sources := countValid_le_sumW scores sources
    have hcond : ¬ (countValid scores < 2 ∨ sumW scores sources = 0) := by
      push_neg
      exact ⟨by omega, by linarith⟩
    unfold calculateWeightedConsensus
    rw [hne]
    simp only [Bool.false_eq_true, if_false, consensusFold_eq]
    rw [if_neg hcond]
    rfl
  have w0 : weightAt exThreeReputable 0 = 3/2 := rfl
  have w1 : weightAt exThreeReputable 1 = 3/2 := rfl
  have w2 : weightAt exThreeReputable 2 = 3/2 := rfl
  have cv : countValid exThreeScores = 3 := by
    norm_num [countValid, validEnum, exThreeScores, validNli, List.enum,
      List.enumFrom, List.filter]
  have hWE : sumWE exThreeScores exThreeReputable = 9/5 := by
    norm_num [sumWE, validEnum, exThreeScores, validNli, List.enum,
      List.enumFrom, List.filter, w0, w1, w2]
  have hWC : sumWC exThreeScores exThreeReputable = 9/40 := by
    norm_num [sumWC, validEnum, exThreeScores, validNli, List.enum,
      List.enumFrom, List.filter, w0, w1, w2]
  have hW : sumW exThreeScores exThreeReputable = 9/2 := by
    norm_num [sumW, validEnum, exThreeScores, validNli, List.enum,
      List.enumFrom, List.filter, w0, w1, w2]
  have hAvgE : weightedEntailAvg exThreeScores exThreeReputable = 0.40 := by
    rw [weightedEntailAvg, hWE, hW]
    norm_num
  have hAvgC : weightedContraAvg exThreeScores exThreeReputable = 0.05 := by
    rw [weightedContraAvg, hWC, hW]
    norm_num
  refine ⟨main, ⟨?_, hAvgE, hAvgC⟩, ?_⟩
  · rw [main exThreeScores exThreeReputable (by rw [cv]; omega), hAvgE, hAvgC]
    norm_num [amendedThresholdClassify]
  · intro s1 σ1 s2 σ2 h1 h2 he hc
    rw [main s1 σ1 h1, main s2 σ2 h2, he, hc]

/-- Witness for C1: the concrete example discharges the hypothesis. -/
theorem c1_witness :
    2 ≤ countValid exThreeScores
    ∧ calculateWeightedConsensus exThreeScores exThreeReputable =
        amendedThresholdClassify
          (weightedEntailAvg exThreeScores exThreeReputable)
          (weightedContraAvg exThreeScores exThreeReputable) := by
  have cv : countValid exThreeScores = 3 := by
    norm_num [countValid, validEnum, exThreeScores, validNli, List.enum,
      List.enumFrom, List.filter]
  exact ⟨by omega, c1_consensus_classification.1 exThreeScores
    exThreeReputable (by omega)⟩

/-- Claim C2: with fewer than 2 valid (non-degenerate) scores,
`calculateWeightedConsensus` returns `insufficient_evidence`, regardless of
the magnitude of any single valid score. -/
theorem c2_insufficient_below_two (scores : List NliScore)
    (sources : List Source) (h : countValid scores < 2) :
    calculateWeightedConsensus scores sources = .insufficient_evidence := by
  unfold calculateWeightedConsensus
  by_cases hs : scores.isEmpty
  · rw [hs]
    simp
  · rw [Bool.eq_false_iff.mpr hs]
    simp only [Bool.false_eq_true, if_false, consensusFold_eq]
    rw [if_pos (Or.inl h)]

/-- Witness for C2: a single valid score of large magnitude still yields
`insufficient_evidence`. -/
theorem c2_witness :
    countValid [(⟨0.9, 0, 0.1⟩ : NliScore)] < 2
    ∧ calculateWeightedConsensus [⟨0.9, 0, 0.1⟩] [] =
        .insufficient_evidence := by
  have cv : countValid [(⟨0.9, 0, 0.1⟩ : NliScore)] = 1 := by
    norm_num [countValid, validEnum, validNli, List.enum, List.enumFrom,
      List.filter]
  exact ⟨by omega, c2_insufficient_below_two [⟨0.9, 0, 0.1⟩] [] (by omega)⟩

/-- JS word character class (letters, digits, underscore). -/
def isWordChar (c : Char) : Bool := c.isAlphanum || c = '_'

/-- State of the number-token scanner: finished tokens plus the current
partial token (its characters in reverse, and whether a decimal point has
been consumed). -/
structure NumScanState where
  tokens : List String
  cur : Option (List Char × Bool)

/-- One scanner step, mirroring the global regex match of a digit run with
an optional fraction part and an optional trailing percent sign
(`claim.match` in server.js lines 498-499). -/
def numScanStep (st : NumScanState) (c : Char) : NumScanState :=
  match st.cur with
  | none =>
      if c.isDigit then { st with cur := some ([c], false) } else st
  | some (cs, dotSeen) =>
      if c.isDigit then { st with cur := some (c :: cs, dotSeen) }
      else if c = '.' ∧ dotSeen = false then
        { st with cur := some (c :: cs, true) }
      else if c = '%' then
        { tokens := st.tokens ++ [String.mk (c :: cs).reverse], cur := none }
      else
        { tokens := st.tokens ++ [String.mk cs.reverse], cur := none }

/-- All number tokens of a string, in order. -/
def numberTokens (s : String) : List String :=
  let st := s.toList.foldl numScanStep ⟨[], none⟩
  match st.cur with
  | none => st.tokens
  | some (cs, _) => st.tokens ++ [String.mk cs.reverse]

/-- `claimNumbers.some(num => evidence.includes(num))` (server.js line 500). -/
def numberMatchB (evidence claim : String) : Bool :=
  (numberTokens claim).any (fun num => containsSubstr evidence num)

/-- Strip every character that is neither a word character nor whitespace
(the `replace` of server.js line 504). -/
def stripNonWord (s : String) : String :=
  String.mk (s.toList.filter (fun c => isWordChar c || c.isWhitespace))

/-- Split on whitespace, dropping empty pieces. -/
def splitWs (s : String) : List String :=
  (s.split (fun c => c.isWhitespace)).filter (fun w => w ≠ "")

/-- Common words skipped by the significant-word count (server.js line 514). -/
def commonWords : List String :=
  ["that", "this", "which", "what", "when", "where", "there", "have",
   "been", "will", "would", "could", "should"]

/-- The significant claim words: lowercased, punctuation stripped, longer
than 3 characters and not common (server.js lines 503-521). -/
def significantWords (claim : String) : List String :=
  ((splitWs (stripNonWord claim.toLower)).filter (fun w => w.length > 3)).filter
    (fun w => !(commonWords.contains w))

/-- The significant-word overlap fraction `overlapRatio`
(server.js line 524): matched significant words over all significant
words, 0 when there are none. -/
def overlapFrac (evidence claim : String) : ℚ :=
  let sig := significantWords claim
  if sig.length > 0 then
    ((sig.filter (fun w => containsSubstr evidence.toLower w)).length : ℚ) /
      (sig.length : ℚ)
  else 0

/-- The word `w` occurs in `h` starting at position `i` with regex
word boundaries on both sides. -/
def wordOccursAt (h w : List Char) (i : Nat) : Bool :=
  w.isPrefixOf (h.drop i)
  && (i == 0 || !isWordChar (h.getD (i - 1) ' '))
  && (decide (h.length ≤ i + w.length) || !isWordChar (h.getD (i + w.length) ' '))

/-- Word-bounded occurrence anywhere in the string (a `\bw\b` regex test on
an already lowercased string). -/
def containsWord (hay w : String) : Bool :=
  (List.range (hay.toList.length + 1)).any
    (fun i => wordOccursAt hay.toList w.toList i)

/-- A `\bw1\b.*\bw2\b` regex test on an already lowercased string: a
bounded occurrence of `w1` followed, with no intervening newline, by a
bounded occurrence of `w2`. -/
def containsWordPairSeq (hay w1 w2 : String) : Bool :=
  let h := hay.toList
  (List.range (h.length + 1)).any (fun i =>
    wordOccursAt h w1.toList i &&
    (List.range (h.length + 1)).any (fun j =>
      decide (i + w1.length ≤ j) && wordOccursAt h w2.toList j &&
      !((h.drop (i + w1.length)).take (j - (i + w1.length))).contains '\n'))

/-- The contradiction-marker patterns (server.js lines 527-540). -/
def hasContradictionMarker (evidence : String) : Bool :=
  let h := evidence.toLower
  containsWordPairSeq h "no" "true" || containsWordPairSeq h "not" "true"
  || containsWord h "false" || containsWord h "incorrect"
  || containsWord h "denied" || containsWord h "denies"
  || containsWord h "disputed" || containsWord h "disputes"
  || containsWord h "refuted" || containsWord h "refutes"
  || containsWord h "contrary to"
  || containsWord h "debunked" || containsWord h "debunks"
  || containsWord h "misleading"
  || containsWord h "no evidence"

/-- The support-marker patterns (server.js lines 543-556). -/
def hasSupportMarker (evidence : String) : Bool :=
  let h := evidence.toLower
  containsWord h "confirms" || containsWord h "confirmed"
  || containsWord h "verify" || containsWord h "verified"
  || containsWord h "verifies"
  || containsWord h "true" || containsWord h "correct"
  || containsWord h "accurate"
  || containsWord h "supports" || containsWord h "supported"
  || containsWord h "agrees" || containsWord h "agreed"
  || containsWord h "consistent with"
  || containsWord h "show that" || containsWord h "shows that"
  || containsWord h "prove" || containsWord h "proves"

/-- The score-combination table of the fallback scorer
(server.js lines 558-602): base entail from the overlap tiers, support
bonus, contradiction override, unrelated floor, final clamping of entail
and contra to [0, 0.7] and neutral as the non-negative remainder. -/
def fallbackCombine (ov : ℚ) (numMatch hasSup hasContra : Bool) : NliScore :=
  let entail0 : ℚ :=
    if ov > 0.5 ∧ numMatch = true then 0.45
    else if ov > 0.4 then 0.35
    else if ov > 0.3 then 0.25
    else if ov > 0.2 then 0.15
    else 0
  let entail1 : ℚ :=
    if hasSup = true ∧ ov > 0.2 then min (entail0 + 0.25) 0.6 else entail0
  let entail2 : ℚ :=
    if hasContra = true ∧ ov > 0.2 then entail1 * 0.4 else entail1
  let contra2 : ℚ :=
    if hasContra = true ∧ ov > 0.2 then max 0.35 (ov * 0.7) else 0
  let entail3 : ℚ :=
    if ov < 0.15 ∧ hasSup = false ∧ hasContra = false then 0.05 else entail2
  let contra3 : ℚ :=
    if ov < 0.15 ∧ hasSup = false ∧ hasContra = false then 0.05 else contra2
  let entailF : ℚ := min (max entail3 0) 0.7
  let contraF : ℚ := min (max contra3 0) 0.7
  ⟨entailF, contraF, max 0 (1 - entailF - contraF)⟩

/-- `fallbackScoring` (server.js lines 493-603): the deterministic lexical
heuristic NLI scorer. -/
def fallbackScoring (evidence claim : String) : NliScore :=
  fallbackCombine (overlapFrac evidence claim) (numberMatchB evidence claim)
    (hasSupportMarker evidence) (hasContradictionMarker evidence)

/-- Score of a label in the external classification response
(the `labels.indexOf` and `scores[idx]` lookup of server.js lines 660-667). -/
def lookupScore (l : List (String × ℚ)) (lab : String) : Option ℚ :=
  match l.find? (fun p => p.1 == lab) with
  | some p => some p.2
  | none => none

/-- `performEnhancedNLI` (server.js lines 608-696). The external call is
modelled at its interface: `hfToken` says whether the external capability
is configured, `cached` is a fresh cache hit if any, and `ext` is the label
scores of the external response (`none` when the invocation failed or
timed out). -/
def performEnhancedNLI (hfToken : Bool) (cached : Option NliScore)
    (ext : Option (List (String × ℚ))) (evidence claim : String) : NliScore :=
  if hfToken = false then fallbackScoring evidence claim
  else
    match cached with
    | some r => r
    | none =>
      match ext with
      | none => fallbackScoring evidence claim
      | some labelScores =>
        let entail := (lookupScore labelScores "supports").getD 0
        let contra := (lookupScore labelScores "contradicts").getD 0
        let neutral := (lookupScore labelScores "unrelated").getD 0.5
        if entail + contra + neutral < 0.5 ∨ entail + contra + neutral > 1.5
        then fallbackScoring evidence claim
        else ⟨entail, contra, neutral⟩

/-- All three components lie in the unit interval. -/
def unitRange (r : NliScore) : Prop :=
  0 ≤ r.entail ∧ r.entail ≤ 1 ∧ 0 ≤ r.contra ∧ r.contra ≤ 1 ∧
    0 ≤ r.neutral ∧ r.neutral ≤ 1

theorem clamp_bounds (x : ℚ) :
    0 ≤ min (max x 0) 0.7 ∧ min (max x 0) 0.7 ≤ (0.7 : ℚ) :=
  ⟨le_min (le_max_right x 0) (by norm_num), min_le_right _ _⟩

theorem fallbackScoring_clamped (evidence claim : String) :
    0 ≤ (fallbackScoring evidence claim).entail
    ∧ (fallbackScoring evidence claim).entail ≤ 0.7
    ∧ 0 ≤ (fallbackScoring evidence claim).contra
    ∧ (fallbackScoring evidence claim).contra ≤ 0.7
    ∧ (fallbackScoring evidence claim).neutral =
        max 0 (1 - (fallbackScoring evidence claim).entail
                 - (fallbackScoring evidence claim).contra) := by
  simp only [fallbackScoring, fallbackCombine]
  refine ⟨(clamp_bounds _).1, (clamp_bounds _).2,
    (clamp_bounds _).1, (clamp_bounds _).2, ?_⟩
  first
  | rfl
  | trivial

theorem fallbackScoring_unitRange (evidence claim : String) :
    unitRange (fallbackScoring evidence claim) := by
  obtain ⟨h1, h2, h3, h4, h5⟩ := fallbackScoring_clamped evidence claim
  refine ⟨h1, by linarith, h3, by linarith, ?_, ?_⟩
  · rw [h5]
    exact le_max_left 0 _
  · rw [h5]
    have : 1 - (fallbackScoring evidence claim).entail
        - (fallbackScoring evidence claim).contra ≤ 1 := by linarith
    exact max_le (by norm_num) this

theorem lookupScore_bound (l : List (String × ℚ)) (lab : String)
    (hl : ∀ p ∈ l, 0 ≤ p.2 ∧ p.2 ≤ 1) (d : ℚ) (hd : 0 ≤ d ∧ d ≤ 1) :
    0 ≤ (lookupScore l lab).getD d ∧ (lookupScore l lab).getD d ≤ 1 := by
  unfold lookupScore
  cases hfind : l.find? (fun p => p.1 == lab) with
  | none => simpa using hd
  | some p =>
    have hp : p ∈ l := List.mem_of_find?_eq_some hfind
    simpa using hl p hp

/-- Claim C3: the fallback scorer clamps entail and contra to [0, 0.7] and
derives neutral as the non-negative remainder; every scorer output lies in
the unit cube whenever the external response scores do; and with the
external capability disabled the scorer returns exactly the fallback
result. -/
theorem c3_nli_bounds_and_fallback :
    (∀ evidence claim : String,
        0 ≤ (fallbackScoring evidence claim).entail
        ∧ (fallbackScoring evidence claim).entail ≤ 0.7
        ∧ 0 ≤ (fallbackScoring evidence claim).contra
        ∧ (fallbackScoring evidence claim).contra ≤ 0.7
        ∧ (fallbackScoring evidence claim).neutral =
            max 0 (1 - (fallbackScoring evidence claim).entail
                     - (fallbackScoring evidence claim).contra))
    ∧ (∀ (hfToken : Bool) (cached : Option NliScore)
          (ext : Option (List (String × ℚ))) (evidence claim : String),
        (∀ r, cached = some r → unitRange r) →
        (∀ l, ext = some l → ∀ p ∈ l, 0 ≤ p.2 ∧ p.2 ≤ 1) →
        unitRange (performEnhancedNLI hfToken cached ext evidence claim))
    ∧ (∀ (cached : Option NliScore) (ext : Option (List (String × ℚ)))
          (evidence claim : String),
        performEnhancedNLI false cached ext evidence claim =
          fallbackScoring evidence claim) := by
  refine ⟨fallbackScoring_clamped, ?_, fun _ _ _ _ => rfl⟩
  intro hfToken cached ext evidence claim hcache hext
  unfold performEnhancedNLI
  by_cases htok : hfToken = false
  · rw [if_pos htok]
    exact fallbackScoring_unitRange evidence claim
  · rw [if_neg htok]
    cases cached with
    | some r => exact hcache r rfl
    | none =>
      dsimp only
      cases ext with
      | none => exact fallbackScoring_unitRange evidence claim
      | some l =>
        dsimp only
        have hl := hext l rfl
        have he := lookupScore_bound l "supports" hl 0 (by norm_num)
        have hc := lookupScore_bound l "contradicts" hl 0 (by norm_num)
        have hn := lookupScore_bound l "unrelated" hl 0.5 (by norm_num)
        split
        · exact fallbackScoring_unitRange evidence claim
        · exact ⟨he.1, he.2, hc.1, hc.2, hn.1, hn.2⟩

/-- Witness for C3: a disabled-capability call and a well-formed external
response instantiate the hypotheses. -/
theorem c3_witness :
    ((∀ r : NliScore,
        (none : Option NliScore) = some r → unitRange r)
      ∧ (∀ l : List (String × ℚ),
        (some [("supports", 1/2), ("contradicts", 1/4), ("unrelated", 1/4)] :
            Option (List (String × ℚ))) = some l →
          ∀ p ∈ l, 0 ≤ p.2 ∧ p.2 ≤ 1))
    ∧ unitRange (performEnhancedNLI true none
        (some [("supports", 1/2), ("contradicts", 1/4), ("unrelated", 1/4)])
        "the sky is blue" "the sky is blue") := by
  have h1 : ∀ r : NliScore, (none : Option NliScore) = some r → unitRange r :=
    fun r h => by cases h
  have h2 : ∀ l : List (String × ℚ),
      (some [("supports", 1/2), ("contradicts", 1/4), ("unrelated", 1/4)] :
          Option (List (String × ℚ))) = some l →
        ∀ p ∈ l, 0 ≤ p.2 ∧ p.2 ≤ 1 := by
    intro l h p hp
    cases h
    simp only [List.mem_cons, List.not_mem_nil, or_false] at hp
    rcases hp with h | h | h <;> subst h <;> norm_num
  exact ⟨⟨h1, h2⟩, c3_nli_bounds_and_fallback.2.1 true none _ _ _ h1 h2⟩

/-- Entity bundle extracted once per claim (`extractEntities`,
server.js lines 173-192). -/
structure EntityBundle where
  people : List String
  places : List String
  organizations : List String
  dates : List String
  values : List String
  acronyms : List String
  properNouns : List String
deriving DecidableEq

/-- A source kept as relevant for one claim, with its relevance score,
match-reason string and evidence snippet (server.js lines 1256-1263). -/
structure RelSource where
  src : Source
  relevanceScore : ℚ
  matchType : String
  evidence : String
deriving DecidableEq

/-- The per-claim result record assembled by `processClaim`
(server.js lines 1286-1294). -/
structure ProcessedClaim where
  text : String
  confidence_score : ℚ
  entail_score : ℚ
  contra_score : ℚ
  consensus : Verdict
  entities : EntityBundle
  relevant_sources : List RelSource
deriving DecidableEq

/-- The fixed verdict-to-score mapping of `calculateCredibilityScore`
(server.js lines 1322-1330). -/
def verdictScore (v : Verdict) : ℚ :=
  match v with
  | .strongly_supported => 1
  | .supported => 0.8
  | .weakly_supported => 0.65
  | .contested => 0.5
  | .insufficient_evidence => 0.5
  | .weakly_refuted => 0.35
  | .likely_false => 0.3
  | .refuted => 0.1

/-- One step of the credibility accumulation (total weight, weighted
score). -/
def credStep (a : ℚ × ℚ) (c : ProcessedClaim) : ℚ × ℚ :=
  (a.1 + c.confidence_score, a.2 + verdictScore c.consensus * c.confidence_score)

/-- `calculateCredibilityScore` (server.js lines 1312-1336). -/
def calculateCredibilityScore (claims : List ProcessedClaim) : ℚ :=
  if claims.isEmpty then 0.5
  else
    let acc := claims.foldl credStep (0, 0)
    if acc.1 > 0 then acc.2 / acc.1 else 0.5

/-- Total confidence weight of a claim list. -/
def credTotalWeight (claims : List ProcessedClaim) : ℚ :=
  (claims.map (fun c => c.confidence_score)).sum

/-- Confidence-weighted sum of the verdict scores. -/
def credWeightedSum (claims : List ProcessedClaim) : ℚ :=
  (claims.map (fun c => verdictScore c.consensus * c.confidence_score)).sum

theorem credFold_aux (l : List ProcessedClaim) (a b : ℚ) :
    l.foldl credStep (a, b) =
      (a + credTotalWeight l, b + credWeightedSum l) := by
  induction l generalizing a b with
  | nil => simp [credTotalWeight, credWeightedSum]
  | cons x xs ih =>
    simp only [List.foldl_cons, credStep, ih, credTotalWeight,
      credWeightedSum, List.map_cons, List.sum_cons]
    refine Prod.ext ?_ ?_ <;> simp <;> ring

/-- Claim C8: the credibility score is the confidence-weighted mean of the
fixed verdict-to-score mapping, with strongly_supported scoring 1.0,
refuted 0.1, contested and insufficient_evidence 0.5; an empty claim list
scores 0.5; and two equally-weighted claims verdicted strongly_supported
and refuted score 0.55. -/
theorem c8_credibility_score :
    calculateCredibilityScore [] = 0.5
    ∧ (verdictScore .strongly_supported = 1
        ∧ verdictScore .refuted = 0.1
        ∧ verdictScore .contested = 0.5
        ∧ verdictScore .insufficient_evidence = 0.5)
    ∧ (∀ claims : List ProcessedClaim, 0 < credTotalWeight claims →
        calculateCredibilityScore claims =
          credWeightedSum claims / credTotalWeight claims)
    ∧ (∀ (c1 c2 : ProcessedClaim) (w : ℚ), 0 < w →
        c1.confidence_score = w → c2.confidence_score = w →
        c1.consensus = .strongly_supported → c2.consensus = .refuted →
        calculateCredibilityScore [c1, c2] = 0.55) := by
  have main : ∀ claims : List ProcessedClaim, 0 < credTotalWeight claims →
      calculateCredibilityScore claims =
        credWeightedSum claims / credTotalWeight claims := by
    intro claims hpos
    have hne : claims.isEmpty = false := by
      cases claims with
      | nil => simp [credTotalWeight] at hpos
      | cons x xs => rfl
    unfold calculateCredibilityScore
    rw [hne]
    simp only [Bool.false_eq_true, if_false, credFold_aux, zero_add]
    rw [if_pos hpos]
  refine ⟨rfl, ⟨rfl, rfl, rfl, rfl⟩, main, ?_⟩
  intro c1 c2 w hw h1 h2 hv1 hv2
  have htw : credTotalWeight [c1, c2] = 2 * w := by
    simp [credTotalWeight, h1, h2]
    ring
  have hws : credWeightedSum [c1, c2] = 1.1 * w := by
    simp [credWeightedSum, h1, h2, hv1, hv2, verdictScore]
    norm_num
    ring
  rw [main [c1, c2] (by rw [htw]; positivity), htw, hws]
  rw [div_eq_iff (by positivity)]
  norm_num
  ring

/-- Two concrete claims of equal confidence weight 1, one
strongly_supported and one refuted. -/
def exClaimSS : ProcessedClaim :=
  ⟨"c1", 1, 0, 0, .strongly_supported, ⟨[], [], [], [], [], [], []⟩, []⟩

/-- The refuted counterpart of `exClaimSS`. -/
def exClaimRef : ProcessedClaim :=
  ⟨"c2", 1, 0, 0, .refuted, ⟨[], [], [], [], [], [], []⟩, []⟩

/-- Witness for C8: the 0.55 example at weight 1. -/
theorem c8_witness :
    (0 : ℚ) < 1
    ∧ calculateCredibilityScore [exClaimSS, exClaimRef] = 0.55 :=
  ⟨by norm_num,
    c8_credibility_score.2.2.2 exClaimSS exClaimRef 1 (by norm_num)
      rfl rfl rfl rfl⟩

/-- An extracted claim: cleaned sentence text, claim-likeness score and its
entity bundle (the objects produced by `extractFactualClaims`,
server.js lines 74-78). -/
structure ClaimC where
  text : String
  score : ℚ
  entities : EntityBundle
deriving DecidableEq

/-- Separator join, mirroring `Array.prototype.join`. -/
def joinSep (sep : String) : List String → String
  | [] => ""
  | [x] => x
  | x :: y :: ys => x ++ sep ++ joinSep sep (y :: ys)

/-- Scanner state for the number-or-money token regex of
`calculateSourceRelevance` (server.js line 463): digit runs with optional
fraction and percent, or a dollar sign followed by digits and commas. The
current partial token keeps its characters in reverse plus flags for a
consumed decimal point and for the money alternative. -/
structure RelNumState where
  tokens : List String
  cur : Option (List Char × Bool × Bool)

/-- Start of a fresh token at character `c`, if any. -/
def relNumStart (c : Char) : Option (List Char × Bool × Bool) :=
  if c.isDigit then some ([c], false, false)
  else if c = '$' then some (['$'], false, true)
  else none

/-- One scanner step for the number-or-money token regex. -/
def relNumStep (st : RelNumState) (c : Char) : RelNumState :=
  match st.cur with
  | none => { st with cur := relNumStart c }
  | some (cs, dotSeen, isMoney) =>
    if isMoney then
      if c.isDigit || c = ',' then { st with cur := some (c :: cs, dotSeen, true) }
      else
        { tokens := st.tokens ++
            (if cs.length > 1 then [String.mk cs.reverse] else []),
          cur := relNumStart c }
    else
      if c.isDigit then { st with cur := some (c :: cs, dotSeen, false) }
      else if c = '.' ∧ dotSeen = false then
        { st with cur := some (c :: cs, true, false) }
      else if c = '%' then
        { tokens := st.tokens ++ [String.mk (c :: cs).reverse], cur := none }
      else
        { tokens := st.tokens ++ [String.mk cs.reverse], cur := relNumStart c }

/-- All number-or-money tokens of a string, in order. -/
def relNumTokens (s : String) : List String :=
  let st := s.toList.foldl relNumStep ⟨[], none⟩
  match st.cur with
  | none => st.tokens
  | some (cs, _, isMoney) =>
      st.tokens ++
        (if isMoney then (if cs.length > 1 then [String.mk cs.reverse] else [])
         else [String.mk cs.reverse])

/-- `calculateSourceRelevance` (server.js lines 433-488): combines the NLI
magnitude, entity matches, shared number tokens, keyword overlap and a
title bonus; returns the capped score and the match-reason string. -/
def calculateSourceRelevance (claim : ClaimC) (source : Source)
    (evidence : String) (nliResult : NliScore) : ℚ × String :=
  let claimText := claim.text.toLower
  let sourceText := (source.title ++ " " ++ source.description.getD "").toLower
  let nliS := nliResult.entail + nliResult.contra
  let score1 := nliS * 2
  let mt1 : List String := if nliS > 0.3 then ["semantic"] else []
  let ents := claim.entities
  let entList := ents.people ++ ents.places ++ ents.organizations
  let entityMatches :=
    (entList.filter (fun e => e.length > 2 && containsSubstr sourceText e.toLower)).length
  let score2 := score1 + (entityMatches : ℚ) * 0.5
  let mt2 := mt1 ++
    (if entityMatches > 0 then ["entities(" ++ toString entityMatches ++ ")"]
     else [])
  let claimNumbers := relNumTokens claimText
  let sourceNumbers := relNumTokens sourceText
  let numberMatches :=
    (claimNumbers.filter (fun num => sourceNumbers.contains num)).length
  let score3 := score2 + (numberMatches : ℚ) * 0.8
  let mt3 := mt2 ++
    (if numberMatches > 0 then ["numbers(" ++ toString numberMatches ++ ")"]
     else [])
  let claimWords := (splitWs claimText).filter (fun w => w.length > 3)
  let sourceWords := (splitWs sourceText).filter (fun w => w.length > 3)
  let overlapN := (claimWords.filter (fun w => sourceWords.contains w)).length
  let ovr := (overlapN : ℚ) / (max claimWords.length 1 : ℚ)
  let score4 := score3 + ovr * 0.5
  let mt4 := mt3 ++
    (if ovr > 0.2 then ["keywords(" ++ toString overlapN ++ ")"] else [])
  let score5 :=
    if source.title ≠ "" then
      let titleWords := splitWs source.title.toLower
      let titleOverlap := (claimWords.filter (fun w => titleWords.contains w)).length
      score4 + ((titleOverlap : ℚ) / (max claimWords.length 1 : ℚ)) * 0.3
    else score4
  let mtJoin := joinSep ", " mt4
  (min score5 2, if mtJoin = "" then "minimal" else mtJoin)

/-- The all-zero-entail placeholder substituted for a failed NLI attempt
(server.js line 1268). -/
def nliPlaceholder : NliScore := ⟨0, 0, 1⟩

/-- Outcome of the NLI attempt for the evidence at index `i`: the NLI
result when the invocation succeeds and the indexed source exists,
otherwise `none` (the thrown path of server.js lines 1251-1269; a missing
source makes the relevance computation throw after the NLI call, which
also discards the result). -/
def nliOutcome (nli : String → String → Option NliScore)
    (sources : List Source) (claimText : String) (i : Nat) (ev : String) :
    Option NliScore :=
  match nli ev claimText, sources.get? i with
  | some r, some _ => some r
  | _, _ => none

/-- The per-claim NLI score list handed to the consensus computation:
every attempt contributes, failed attempts as the placeholder
(server.js lines 1248-1280). -/
def claimNliScores (nli : String → String → Option NliScore)
    (evidenceTexts : List String) (sources : List Source)
    (claimText : String) : List NliScore :=
  (evidenceTexts.take 8).enum.map
    (fun p => (nliOutcome nli sources claimText p.1 p.2).getD nliPlaceholder)

/-- The NLI results actually obtained (successful attempts only). -/
def obtainedNli (nli : String → String → Option NliScore)
    (evidenceTexts : List String) (sources : List Source)
    (claimText : String) : List NliScore :=
  (evidenceTexts.take 8).enum.filterMap
    (fun p => nliOutcome nli sources claimText p.1 p.2)

/-- Descending order on relevance scores (the comparator of
server.js line 1293). -/
def relBefore (a b : RelSource) : Bool :=
  decide (b.relevanceScore ≤ a.relevanceScore)

/-- Insertion into a descending-by-relevance list. -/
def insertRel (a : RelSource) : List RelSource → List RelSource
  | [] => [a]
  | b :: rest => if relBefore a b then a :: b :: rest else b :: insertRel a rest

/-- Sort descending by relevance score. -/
def sortRelSources (l : List RelSource) : List RelSource :=
  l.foldr insertRel []

/-- The relevant-source list of one claim: sources whose relevance exceeds
0.3, sorted descending and capped at 4 (server.js lines 1254-1263, 1293). -/
def claimRelevantSources (nli : String → String → Option NliScore)
    (evidenceTexts : List String) (sources : List Source) (claim : ClaimC) :
    List RelSource :=
  let pushes := (evidenceTexts.take 8).enum.filterMap (fun p =>
    match nli p.2 claim.text, sources.get? p.1 with
    | some r, some src =>
      let rel := calculateSourceRelevance claim src p.2 r
      if rel.1 > 0.3 then some ⟨src, rel.1, rel.2, p.2.take 200⟩ else none
    | _, _ => none)
  (sortRelSources pushes).take 4

/-- `processClaim` (server.js lines 1242-1295): scores the claim against
the first 8 evidence texts, substitutes the placeholder on failure, runs
the weighted consensus and reports plain means of entail/contra over all
attempt results. -/
def processClaim (nli : String → String → Option NliScore)
    (evidenceTexts : List String) (sources : List Source) (claim : ClaimC) :
    ProcessedClaim :=
  let nliScores := claimNliScores nli evidenceTexts sources claim.text
  let consensus := calculateWeightedConsensus nliScores (sources.take 8)
  let avgEntail := (nliScores.map (fun s => s.entail)).sum / (nliScores.length : ℚ)
  let avgContra := (nliScores.map (fun s => s.contra)).sum / (nliScores.length : ℚ)
  ⟨claim.text, claim.score, avgEntail, avgContra, consensus, claim.entities,
    claimRelevantSources nli evidenceTexts sources claim⟩

/-- `processClaimsInParallel` (server.js lines 1240-1307): batching only
bounds concurrency; the result order equals the claim order. -/
def processClaimsInParallel (nli : String → String → Option NliScore)
    (claims : List ClaimC) (evidenceTexts : List String)
    (sources : List Source) : List ProcessedClaim :=
  claims.map (processClaim nli evidenceTexts sources)

theorem sum_getD_eq_filterMap {α : Type} (f : α → Option NliScore)
    (g : NliScore → ℚ) (hg : g nliPlaceholder = 0) (l : List α) :
    ((l.map (fun x => (f x).getD nliPlaceholder)).map g).sum =
      ((l.filterMap f).map g).sum := by
  induction l with
  | nil => simp
  | cons x xs ih =>
    cases hfx : f x with
    | none =>
      simp only [List.map_cons, List.sum_cons, List.filterMap_cons, hfx,
        Option.getD_none, hg, zero_add]
      exact ih
    | some r =>
      simp only [List.map_cons, List.sum_cons, List.filterMap_cons, hfx,
        Option.getD_some]
      rw [ih]


/-- Claim C4 (amended): the reported entail/contra means divide the sum of
the successfully obtained results by the number of NLI attempts, so failed
attempts enter the denominator as zero-entail placeholders. -/
theorem c4_means_over_attempts (nli : String → String → Option NliScore)
    (evidenceTexts : List String) (sources : List Source) (claim : ClaimC) :
    (processClaim nli evidenceTexts sources claim).entail_score =
      ((obtainedNli nli evidenceTexts sources claim.text).map
          (fun s => s.entail)).sum / ((evidenceTexts.take 8).length : ℚ)
    ∧ (processClaim nli evidenceTexts sources claim).contra_score =
      ((obtainedNli nli evidenceTexts sources claim.text).map
          (fun s => s.contra)).sum / ((evidenceTexts.take 8).length : ℚ) := by
  have hlen : (claimNliScores nli evidenceTexts sources claim.text).length =
      (evidenceTexts.take 8).length := by
    simp [claimNliScores]
  constructor
  · show ((claimNliScores nli evidenceTexts sources claim.text).map
        (fun s => s.entail)).sum /
        ((claimNliScores nli evidenceTexts sources claim.text).length : ℚ) = _
    rw [hlen, claimNliScores, obtainedNli,
      sum_getD_eq_filterMap _ (fun s => s.entail) rfl]
  · show ((claimNliScores nli evidenceTexts sources claim.text).map
        (fun s => s.contra)).sum /
        ((claimNliScores nli evidenceTexts sources claim.text).length : ℚ) = _
    rw [hlen, claimNliScores, obtainedNli,
      sum_getD_eq_filterMap _ (fun s => s.contra) rfl]

/-- A concrete source for the C4 counterexample. -/
def cexSource : Source :=
  ⟨"S", "https://s.example/1", some "Reuters", some "d", none, 0⟩

/-- A concrete NLI oracle: succeeds on evidence E1, throws on E2. -/
def cexNli : String → String → Option NliScore :=
  fun ev _ => if ev = "E1" then some ⟨0.4, 0.1, 0.5⟩ else none

/-- A concrete claim for the C4 counterexample. -/
def cexClaim : ClaimC := ⟨"claim text", 1, ⟨[], [], [], [], [], [], []⟩⟩

/-- Counterexample to C4 as stated: with one successful NLI result of
entail 0.4 and one failed attempt, the reported entail mean is 0.2, while
the mean over the results actually obtained is 0.4 — the failed attempt
does contribute to the reported mean. -/
theorem c4_counterexample :
    (processClaim cexNli ["E1", "E2"] [cexSource, cexSource]
        cexClaim).entail_score = 1/5
    ∧ ((obtainedNli cexNli ["E1", "E2"] [cexSource, cexSource]
          cexClaim.text).map (fun s => s.entail)).sum /
        ((obtainedNli cexNli ["E1", "E2"] [cexSource, cexSource]
          cexClaim.text).length : ℚ) = 2/5
    ∧ (1/5 : ℚ) ≠ 2/5 := by
  have he : cexNli "E1" cexClaim.text = some ⟨0.4, 0.1, 0.5⟩ := by
    unfold cexNli
    rw [if_pos rfl]
  have hne : cexNli "E2" cexClaim.text = none := by
    unfold cexNli
    rw [if_neg (by decide)]
  have ho0 : nliOutcome cexNli [cexSource, cexSource] cexClaim.text 0 "E1" =
      some ⟨0.4, 0.1, 0.5⟩ := by
    unfold nliOutcome
    rw [he]
    rfl
  have ho1 : nliOutcome cexNli [cexSource, cexSource] cexClaim.text 1 "E2" =
      none := by
    unfold nliOutcome
    rw [hne]
  have hobt : obtainedNli cexNli ["E1", "E2"] [cexSource, cexSource]
      cexClaim.text = [⟨0.4, 0.1, 0.5⟩] := by
    unfold obtainedNli
    simp only [List.take, List.enum, List.enumFrom, List.filterMap_cons,
      List.filterMap_nil, ho0, ho1]
  have hsc : claimNliScores cexNli ["E1", "E2"] [cexSource, cexSource]
      cexClaim.text = [⟨0.4, 0.1, 0.5⟩, nliPlaceholder] := by
    unfold claimNliScores
    simp only [List.take, List.enum, List.enumFrom, List.map_cons,
      List.map_nil, ho0, ho1, Option.getD_some, Option.getD_none]
  refine ⟨?_, ?_, by norm_num⟩
  · show ((claimNliScores cexNli ["E1", "E2"] [cexSource, cexSource]
        cexClaim.text).map (fun s => s.entail)).sum /
        ((claimNliScores cexNli ["E1", "E2"] [cexSource, cexSource]
          cexClaim.text).length : ℚ) = 1/5
    rw [hsc]
    norm_num [nliPlaceholder]
  · rw [hobt]
    norm_num

/-- Claim C10: a failed NLI invocation is substituted by the placeholder
result with entail 0, contra 0, neutral 1; the consensus loop treats that
placeholder as valid (only the exact all-zero triple is skipped), so each
failure counts toward the 2-valid-score requirement, adds full weight with
zero entail/contra, and can only pull the weighted means toward 0. -/
theorem c10_placeholder_dilution :
    (∀ (nli : String → String → Option NliScore) (sources : List Source)
        (claimText : String) (i : Nat) (ev : String),
      nli ev claimText = none →
        (nliOutcome nli sources claimText i ev).getD nliPlaceholder =
          nliPlaceholder)
    ∧ nliPlaceholder = ⟨0, 0, 1⟩
    ∧ validNli nliPlaceholder = true
    ∧ (∀ s : NliScore, validNli s = false ↔
        (s.entail = 0 ∧ s.contra = 0 ∧ s.neutral = 0))
    ∧ (∀ scores : List NliScore,
        countValid (scores ++ [nliPlaceholder]) = countValid scores + 1)
    ∧ (∀ (scores : List NliScore) (sources : List Source),
        sumWE (scores ++ [nliPlaceholder]) sources = sumWE scores sources
        ∧ sumWC (scores ++ [nliPlaceholder]) sources = sumWC scores sources
        ∧ sumW (scores ++ [nliPlaceholder]) sources =
            sumW scores sources + weightAt sources scores.length)
    ∧ (∀ (scores : List NliScore) (sources : List Source),
        0 ≤ sumWE scores sources → 0 ≤ sumWC scores sources →
        0 < sumW scores sources →
        weightedEntailAvg (scores ++ [nliPlaceholder]) sources ≤
            weightedEntailAvg scores sources
        ∧ weightedContraAvg (scores ++ [nliPlaceholder]) sources ≤
            weightedContraAvg scores sources) := by
  have hvalidEnum : ∀ scores : List NliScore,
      validEnum (scores ++ [nliPlaceholder]) =
        validEnum scores ++ [(scores.length, nliPlaceholder)] := by
    intro scores
    unfold validEnum
    rw [List.enum_append, List.filter_append]
    congr 1
  have hWE2 : ∀ (scores : List NliScore) (sources : List Source),
      sumWE (scores ++ [nliPlaceholder]) sources = sumWE scores sources := by
    intro scores sources
    unfold sumWE
    rw [hvalidEnum scores]
    simp [nliPlaceholder]
  have hWC2 : ∀ (scores : List NliScore) (sources : List Source),
      sumWC (scores ++ [nliPlaceholder]) sources = sumWC scores sources := by
    intro scores sources
    unfold sumWC
    rw [hvalidEnum scores]
    simp [nliPlaceholder]
  have hW2 : ∀ (scores : List NliScore) (sources : List Source),
      sumW (scores ++ [nliPlaceholder]) sources =
        sumW scores sources + weightAt sources scores.length := by
    intro scores sources
    unfold sumW
    rw [hvalidEnum scores]
    simp
  refine ⟨?_, rfl, by norm_num [validNli, nliPlaceholder], ?_, ?_,
    fun scores sources => ⟨hWE2 scores sources, hWC2 scores sources,
      hW2 scores sources⟩, ?_⟩
  · intro nli sources claimText i ev hfail
    unfold nliOutcome
    rw [hfail]
    rfl
  · intro s
    unfold validNli
    by_cases h : s.entail = 0 ∧ s.contra = 0 ∧ s.neutral = 0
    · simp [h]
    · simp [h]
  · intro scores
    unfold countValid
    rw [hvalidEnum scores]
    simp
  · intro scores sources hWE hWC hW
    have hw : 0 < weightAt sources scores.length :=
      lt_of_lt_of_le (by norm_num) (weightAt_ge_one sources scores.length)
    constructor
    · rw [weightedEntailAvg, weightedEntailAvg, hWE2, hW2]
      rw [div_le_div_iff₀ (by linarith) hW]
      nlinarith [mul_nonneg hWE (le_of_lt hw)]
    · rw [weightedContraAvg, weightedContraAvg, hWC2, hW2]
      rw [div_le_div_iff₀ (by linarith) hW]
      nlinarith [mul_nonneg hWC (le_of_lt hw)]

/-- Witness for C10: the dilution part at a concrete score list — adding a
placeholder after two valid scores does not raise the weighted entail
mean. -/
theorem c10_witness :
    (0 ≤ sumWE [⟨0.4, 0.1, 0.5⟩, ⟨0.4, 0.1, 0.5⟩] []
      ∧ 0 ≤ sumWC [⟨0.4, 0.1, 0.5⟩, ⟨0.4, 0.1, 0.5⟩] []
      ∧ 0 < sumW [⟨0.4, 0.1, 0.5⟩, ⟨0.4, 0.1, 0.5⟩] [])
    ∧ weightedEntailAvg ([⟨0.4, 0.1, 0.5⟩, ⟨0.4, 0.1, 0.5⟩] ++
          [nliPlaceholder]) [] ≤
        weightedEntailAvg [⟨0.4, 0.1, 0.5⟩, ⟨0.4, 0.1, 0.5⟩] [] := by
  have h1 : 0 ≤ sumWE [(⟨0.4, 0.1, 0.5⟩ : NliScore), ⟨0.4, 0.1, 0.5⟩] [] := by
    norm_num [sumWE, validEnum, validNli, List.enum, List.enumFrom,
      List.filter, weightAt]
  have h2 : 0 ≤ sumWC [(⟨0.4, 0.1, 0.5⟩ : NliScore), ⟨0.4, 0.1, 0.5⟩] [] := by
    norm_num [sumWC, validEnum, validNli, List.enum, List.enumFrom,
      List.filter, weightAt]
  have h3 : 0 < sumW [(⟨0.4, 0.1, 0.5⟩ : NliScore), ⟨0.4, 0.1, 0.5⟩] [] := by
    norm_num [sumW, validEnum, validNli, List.enum, List.enumFrom,
      List.filter, weightAt]
  exact ⟨⟨h1, h2, h3⟩,
    (c10_placeholder_dilution.2.2.2.2.2.2 _ [] h1 h2 h3).1⟩

/-- Generic or UI-related skip terms filtered out of search queries
(server.js line 201). -/
def skipTerms : List String :=
  ["realtime", "fact", "check", "analyzing", "page", "content", "click",
   "here"]

/-- `skipTerms.some(skip => term.toLowerCase().includes(skip.toLowerCase()))`. -/
def hasSkipTerm (t : String) : Bool :=
  skipTerms.any (fun sk => containsSubstr t.toLower sk.toLower)

/-- Primary query terms: top people, organizations, places and the first
extracted number, with empty strings and skip terms removed
(server.js lines 204-212). -/
def primaryTermsOf (claim : ClaimC) : List String :=
  ((claim.entities.people.take 2 ++ claim.entities.organizations.take 2 ++
    claim.entities.places.take 1 ++ (numberTokens claim.text).take 1).filter
      (fun t => t ≠ "")).filter (fun t => !(hasSkipTerm t))

/-- The filtered noun list for the secondary query
(server.js lines 221-223). -/
def nounsFiltered (nouns0 : List String) : List String :=
  (nouns0.take 3).filter (fun n => n.length > 3 && !(hasSkipTerm n))

/-- The simplified bag-of-words fallback query (server.js lines 230-236):
keep word characters, whitespace, percent and dollar signs, split on
spaces, keep words of more than 3 characters that are not skip terms, use
at most 8 of them. -/
def simplifiedClaimOf (claim : ClaimC) : String :=
  joinSep " " (((((String.mk (claim.text.toList.filter (fun c =>
      isWordChar c || c.isWhitespace || c = '%' || c = '$'))).split
      (fun c => c = ' ')).filter (fun w => w.length > 3)).filter
      (fun w => !(hasSkipTerm w))).take 8)

/-- The queries pushed by the three strategies, in order
(server.js lines 198-240). -/
def rawQueriesOf (claim : ClaimC) (verbs nouns0 : List String) :
    List String :=
  (if (primaryTermsOf claim).isEmpty then []
   else [joinSep " " (primaryTermsOf claim)]) ++
  (match verbs.take 2, nounsFiltered nouns0 with
   | v :: _, _ :: _ => [v ++ " " ++ joinSep " " (nounsFiltered nouns0)]
   | _, _ => []) ++
  (if (simplifiedClaimOf claim).length > 10 then [simplifiedClaimOf claim]
   else [])

/-- `buildSearchQueries` (server.js lines 197-249): the three strategies,
a generic fallback when none produced anything, then drop empty strings
and cap at 3. The verb and noun lists extracted by the external NLP
library are passed in. -/
def buildSearchQueries (claim : ClaimC) (verbs nouns0 : List String) :
    List String :=
  let queries := rawQueriesOf claim verbs nouns0
  let queries2 :=
    if queries.isEmpty then ["news recent developments"] else queries
  (queries2.filter (fun q => q.length > 0)).take 3

/-- All queries over all claims, in claim order (server.js lines 1148-1152). -/
def allQueriesOf (claims : List ClaimC) (verbsOf nounsOf : String → List String) :
    List String :=
  (claims.map (fun c => buildSearchQueries c (verbsOf c.text) (nounsOf c.text))).flatten

/-- First-occurrence deduplication, mirroring `[...new Set(list)]`. -/
def dedupFirst : List String → List String
  | [] => []
  | x :: xs => x :: dedupFirst (xs.filter (fun y => y ≠ x))
termination_by l => l.length
decreasing_by
  simp only [List.length_cons]
  exact Nat.lt_succ_of_le (List.length_filter_le _ _)

/-- The deduplicated, capped query list sent to retrieval
(server.js line 1155). -/
def uniqueQueriesOf (claims : List ClaimC)
    (verbsOf nounsOf : String → List String) : List String :=
  (dedupFirst (allQueriesOf claims verbsOf nounsOf)).take 5

theorem string_ne_length_pos (s : String) (h : s ≠ "") : 0 < s.length := by
  cases s with
  | mk data =>
    cases data with
    | nil => simp at h
    | cons c cs => simp [String.length]

theorem joinSep_length_ge (sep t : String) (ts : List String) :
    t.length ≤ (joinSep sep (t :: ts)).length := by
  cases ts with
  | nil => simp [joinSep]
  | cons y ys =>
    simp only [joinSep, String.length_append]
    omega

theorem rawQueries_pos (claim : ClaimC) (verbs nouns0 : List String) :
    ∀ q ∈ rawQueriesOf claim verbs nouns0, 0 < q.length := by
  intro q hq
  unfold rawQueriesOf at hq
  rcases List.mem_append.mp hq with h12 | h3
  · rcases List.mem_append.mp h12 with h1 | h2
    · rcases hpt : primaryTermsOf claim with _ | ⟨t, ts⟩
      · rw [hpt] at h1
        simp at h1
      · rw [hpt] at h1
        simp only [List.isEmpty_cons, Bool.false_eq_true, if_false,
          List.mem_singleton] at h1
        subst h1
        have htne : t ≠ "" := by
          have : t ∈ primaryTermsOf claim := by
            rw [hpt]
            exact List.mem_cons_self t ts
          unfold primaryTermsOf at this
          exact of_decide_eq_true
            (List.mem_filter.mp (List.mem_filter.mp this).1).2
        calc 0 < t.length := string_ne_length_pos t htne
        _ ≤ _ := joinSep_length_ge " " t ts
    · rcases hv : verbs.take 2 with _ | ⟨v, vs⟩ <;>
        rcases hn : nounsFiltered nouns0 with _ | ⟨n, ns⟩ <;>
        rw [hv, hn] at h2 <;> simp at h2
      subst h2
      simp only [String.length_append]
      have hsp : (" ").length = 1 := rfl
      omega
  · split at h3
    · simp only [List.mem_singleton] at h3
      subst h3
      omega
    · simp at h3

/-- Claim C9: every claim yields between 1 and 3 non-empty query strings
(the generic fallback covers the case where no strategy produced usable
content), and the combined query list over all claims is deduplicated and
capped at 5 before retrieval. -/
theorem c9_query_bounds :
    (∀ (claim : ClaimC) (verbs nouns0 : List String),
        1 ≤ (buildSearchQueries claim verbs nouns0).length
        ∧ (buildSearchQueries claim verbs nouns0).length ≤ 3
        ∧ ∀ q ∈ buildSearchQueries claim verbs nouns0, q ≠ "")
    ∧ (∀ (claims : List ClaimC) (verbsOf nounsOf : String → List String),
        (uniqueQueriesOf claims verbsOf nounsOf).Nodup
        ∧ (uniqueQueriesOf claims verbsOf nounsOf).length ≤ 5) := by
  have hmemdedup : ∀ (l : List String) (a : String),
      a ∈ dedupFirst l → a ∈ l := by
    intro l
    induction l using dedupFirst.induct with
    | case1 => intro a h; simp [dedupFirst] at h
    | case2 x xs ih =>
      intro a h
      rw [dedupFirst] at h
      rcases List.mem_cons.mp h with h | h
      · simp [h]
      · exact List.mem_cons_of_mem x (List.mem_of_mem_filter (ih a h))
  have hnodup : ∀ l : List String, (dedupFirst l).Nodup := by
    intro l
    induction l using dedupFirst.induct with
    | case1 => simp [dedupFirst]
    | case2 x xs ih =>
      rw [dedupFirst]
      refine List.nodup_cons.mpr ⟨?_, ih⟩
      intro hx
      have := hmemdedup _ _ hx
      simp at this
  constructor
  · intro claim verbs nouns0
    unfold buildSearchQueries
    dsimp only
    by_cases hemp : (rawQueriesOf claim verbs nouns0).isEmpty
    · rw [hemp]
      simp only [if_true]
      refine ⟨?_, ?_, ?_⟩
      · decide
      · decide
      · decide
    · rw [Bool.eq_false_iff.mpr hemp]
      simp only [Bool.false_eq_true, if_false]
      have hfil : (rawQueriesOf claim verbs nouns0).filter
          (fun q => q.length > 0) = rawQueriesOf claim verbs nouns0 :=
        List.filter_eq_self.mpr (fun a ha => by
          simpa using rawQueries_pos claim verbs nouns0 a ha)
      rw [hfil]
      have hlen : 0 < (rawQueriesOf claim verbs nouns0).length := by
        cases hr : rawQueriesOf claim verbs nouns0 with
        | nil => rw [hr] at hemp; simp at hemp
        | cons a as => simp
      refine ⟨?_, ?_, ?_⟩
      · rw [List.length_take]
        omega
      · rw [List.length_take]
        omega
      · intro q hqmem
        have hq := rawQueries_pos claim verbs nouns0 q
          (List.mem_of_mem_take hqmem)
        intro habs
        rw [habs] at hq
        simp at hq
  · intro claims verbsOf nounsOf
    unfold uniqueQueriesOf
    refine ⟨(hnodup _).sublist (List.take_sublist _ _), ?_⟩
    rw [List.length_take]
    omega

/-- Outcome of one request of the external news-search capability for a
(query, credential) pair: articles, an HTTP 429, or any other error. -/
inductive SearchOutcome where
  | ok (articles : List Source)
  | rateLimited
  | otherError

/-- The credential-rotation state: the configured keys, the set of keys
currently marked rate-limited, and the rotation index
(server.js lines 51-53). -/
structure KeyState where
  keys : List String
  rateLimited : List String
  currentIdx : Nat

/-- Set insertion (`rateLimitedKeys.add`). -/
def insertKey (k : String) (l : List String) : List String :=
  if k ∈ l then l else k :: l

/-- `getAvailableApiKey` (server.js lines 254-278): resets the
rate-limited set wholesale once every key is limited, then scans from the
current index for the first non-limited key; falls back to the first key. -/
def getAvailableApiKey (st : KeyState) : Option (String × KeyState) :=
  if st.keys.isEmpty then none
  else
    let st1 := if st.rateLimited.length = st.keys.length then
        { st with rateLimited := [] } else st
    match (List.range st1.keys.length).find? (fun i =>
        !(st1.rateLimited.contains
            (st1.keys.getD ((st1.currentIdx + i) % st1.keys.length) ""))) with
    | some i =>
        let keyIndex := (st1.currentIdx + i) % st1.keys.length
        some (st1.keys.getD keyIndex "", { st1 with currentIdx := keyIndex })
    | none => some (st1.keys.getD 0 "", st1)

/-- `markApiKeyRateLimited` (server.js lines 283-289). -/
def markApiKeyRateLimited (k : String) (st : KeyState) : KeyState :=
  { st with rateLimited := insertKey k st.rateLimited,
            currentIdx := (st.currentIdx + 1) % st.keys.length }

/-- Merge articles into the URL-keyed accumulator, first-seen wins
(server.js lines 341-352). -/
def mergeArticles (acc arts : List Source) : List Source :=
  arts.foldl (fun acc2 a =>
    if acc2.any (fun b => b.url == a.url) then acc2 else acc2 ++ [a]) acc

/-- Result of the per-query retry loop: either the whole retrieval aborts
to the mock sources, or it continues with an updated state and
accumulator. -/
inductive QueryResult where
  | mockAbort
  | done (st : KeyState) (acc : List Source)

/-- The per-query credential retry loop (server.js lines 318-378),
bounded by the number of keys: a successful response merges its articles;
a 429 marks the key and either retries with the next key or, once every
key is rate-limited, aborts the whole retrieval to the mock sources; any
other error abandons the query. -/
def tryQueryAttempts (resp : String → String → SearchOutcome) (q : String) :
    Nat → KeyState → List Source → QueryResult
  | 0, st, acc => .done st acc
  | n + 1, st, acc =>
    match getAvailableApiKey st with
    | none => .mockAbort
    | some (key, st1) =>
      match resp q key with
      | .ok arts => .done st1 (mergeArticles acc arts)
      | .otherError => .done st1 acc
      | .rateLimited =>
        let st2 := markApiKeyRateLimited key st1
        if st2.rateLimited.length < st2.keys.length then
          tryQueryAttempts resp q n st2 acc
        else .mockAbort

/-- The outer loop over the queries (server.js lines 313-389). -/
def runQueries (resp : String → String → SearchOutcome) :
    List String → KeyState → List Source → QueryResult
  | [], st, acc => .done st acc
  | q :: rest, st, acc =>
    match tryQueryAttempts resp q st.keys.length st acc with
    | .mockAbort => .mockAbort
    | .done st2 acc2 => runQueries resp rest st2 acc2

/-- The sort comparator of server.js lines 403-411: reputable publishers
first, then most recent first. -/
def articleBefore (a b : Source) : Bool :=
  if isReputableSource a ≠ isReputableSource b then isReputableSource a
  else decide (b.publishedAt ≤ a.publishedAt)

/-- Ordered insertion for the article sort. -/
def insertArticle (a : Source) : List Source → List Source
  | [] => [a]
  | b :: rest =>
    if articleBefore a b then a :: b :: rest else b :: insertArticle a rest

/-- Sort of the deduplicated article list. -/
def sortArticles (l : List Source) : List Source :=
  l.foldr insertArticle []

/-- Milliseconds per day. -/
def msPerDay : Int := 86400000

/-- `getMockSources` (server.js lines 780-825): the fixed synthetic
fallback source set; `now` is the current time in milliseconds. -/
def getMockSources (now : Int) : List Source :=
  [⟨"Global Economic Growth Reaches 3.2% in Latest Quarter",
    "https://example.com/economic-growth-q3", some "Reuters",
    some "Latest economic data shows steady growth across major economies, with technology and healthcare sectors leading the expansion.",
    none, now - 2 * msPerDay⟩,
   ⟨"New Climate Research Shows Accelerating Ice Sheet Loss",
    "https://example.com/climate-research-2024", some "BBC",
    some "Scientists report that Antarctic ice sheets are melting at twice the rate previously estimated, with significant implications for sea level rise.",
    none, now - 1 * msPerDay⟩,
   ⟨"Technology Sector Employment Increases by 15% This Year",
    "https://example.com/tech-employment-2024", some "The Guardian",
    some "The technology sector continues to drive job creation, with artificial intelligence and cybersecurity roles seeing the highest demand.",
    none, now - 3 * msPerDay⟩,
   ⟨"Healthcare Innovations Reduce Treatment Costs by 25%",
    "https://example.com/healthcare-innovations", some "NPR",
    some "New medical technologies and treatment protocols are making healthcare more affordable while improving patient outcomes.",
    none, now - 4 * msPerDay⟩,
   ⟨"Renewable Energy Capacity Doubles in Major Economies",
    "https://example.com/renewable-energy-2024", some "Bloomberg",
    some "Wind and solar power installations have reached record levels, with costs falling below traditional energy sources in most markets.",
    none, now - 5 * msPerDay⟩,
   ⟨"Education Technology Improves Student Performance Metrics",
    "https://example.com/edtech-performance", some "The New York Times",
    some "Studies show that digital learning platforms and AI-powered tutoring systems are helping students achieve better academic outcomes.",
    none, now - 6 * msPerDay⟩]

/-- Prefix test on the character lists of two strings. -/
def strStartsWith (pre s : String) : Bool :=
  pre.toList.isPrefixOf s.toList

/-- `searchNewsEnhanced` (server.js lines 294-428). A fresh cache hit is
passed in as `cache`; `resp` is the behaviour of the external search
capability per (query, key); with no keys configured, an abort or an empty
result the mock sources are served, otherwise the deduplicated articles
are sorted and truncated to `n`. -/
def searchNewsEnhanced (cache : Option (List Source))
    (resp : String → String → SearchOutcome) (st0 : KeyState)
    (queries : List String) (n : Nat) (now : Int) : List Source :=
  match cache with
  | some r => r
  | none =>
    if st0.keys.isEmpty then getMockSources now
    else
      match runQueries resp queries st0 [] with
      | .mockAbort => getMockSources now
      | .done _ arts =>
        if arts.isEmpty then getMockSources now
        else (sortArticles arts).take n

theorem mergeArticles_cons (acc : List Source) (a : Source)
    (as : List Source) :
    mergeArticles acc (a :: as) =
      mergeArticles
        (if acc.any (fun b => b.url == a.url) then acc else acc ++ [a]) as :=
  rfl

theorem mergeArticles_nodup (arts : List Source) :
    ∀ acc : List Source, (acc.map (fun s => s.url)).Nodup →
      ((mergeArticles acc arts).map (fun s => s.url)).Nodup := by
  induction arts with
  | nil => intro acc h; exact h
  | cons a as ih =>
    intro acc h
    rw [mergeArticles_cons]
    by_cases hmem : acc.any (fun b => b.url == a.url)
    · rw [if_pos hmem]
      exact ih acc h
    · rw [if_neg hmem]
      refine ih (acc ++ [a]) ?_
      rw [List.map_append, List.map_singleton]
      rw [List.nodup_append]
      refine ⟨h, List.nodup_singleton _, ?_⟩
      intro u hu hu2
      simp only [List.mem_singleton] at hu2
      subst hu2
      obtain ⟨b, hb, hburl⟩ := List.mem_map.mp hu
      refine hmem ?_
      rw [List.any_eq_true]
      exact ⟨b, hb, by simp [hburl]⟩

theorem tryQueryAttempts_nodup (resp : String → String → SearchOutcome)
    (q : String) :
    ∀ (a : Nat) (st : KeyState) (acc : List Source) (st2 : KeyState)
      (acc2 : List Source),
      (acc.map (fun s => s.url)).Nodup →
      tryQueryAttempts resp q a st acc = .done st2 acc2 →
      (acc2.map (fun s => s.url)).Nodup := by
  intro a
  induction a with
  | zero =>
    intro st acc st2 acc2 h heq
    rw [tryQueryAttempts] at heq
    cases heq
    exact h
  | succ n ih =>
    intro st acc st2 acc2 h heq
    rw [tryQueryAttempts] at heq
    cases hget : getAvailableApiKey st with
    | none => rw [hget] at heq; cases heq
    | some p =>
      rw [hget] at heq
      obtain ⟨key, st1⟩ := p
      dsimp only at heq
      cases hresp : resp q key with
      | ok arts =>
        rw [hresp] at heq
        cases heq
        exact mergeArticles_nodup arts acc h
      | otherError =>
        rw [hresp] at heq
        cases heq
        exact h
      | rateLimited =>
        rw [hresp] at heq
        dsimp only at heq
        split at heq
        · exact ih _ acc st2 acc2 h heq
        · cases heq

theorem runQueries_nodup (resp : String → String → SearchOutcome) :
    ∀ (queries : List String) (st : KeyState) (acc : List Source)
      (st2 : KeyState) (acc2 : List Source),
      (acc.map (fun s => s.url)).Nodup →
      runQueries resp queries st acc = .done st2 acc2 →
      (acc2.map (fun s => s.url)).Nodup := by
  intro queries
  induction queries with
  | nil =>
    intro st acc st2 acc2 h heq
    rw [runQueries] at heq
    cases heq
    exact h
  | cons query rest ih =>
    intro st acc st2 acc2 h heq
    rw [runQueries] at heq
    cases htr : tryQueryAttempts resp query st.keys.length st acc with
    | mockAbort => rw [htr] at heq; cases heq
    | done st3 acc3 =>
      rw [htr] at heq
      exact ih st3 acc3 st2 acc2
        (tryQueryAttempts_nodup resp query _ st acc st3 acc3 h htr) heq

theorem insertArticle_perm (a : Source) (l : List Source) :
    List.Perm (insertArticle a l) (a :: l) := by
  induction l with
  | nil => rfl
  | cons b rest ih =>
    rw [insertArticle]
    by_cases hc : articleBefore a b
    · rw [if_pos hc]
    · rw [if_neg hc]
      exact (ih.cons b).trans (List.Perm.swap a b rest)

theorem sortArticles_perm (l : List Source) :
    List.Perm (sortArticles l) l := by
  induction l with
  | nil => rfl
  | cons a rest ih =>
    have : sortArticles (a :: rest) = insertArticle a (sortArticles rest) :=
      rfl
    rw [this]
    exact (insertArticle_perm a (sortArticles rest)).trans (ih.cons a)

theorem getMockSources_nodup (now : Int) :
    ((getMockSources now).map (fun s => s.url)).Nodup := by
  have : (getMockSources now).map (fun s => s.url) =
      ["https://example.com/economic-growth-q3",
       "https://example.com/climate-research-2024",
       "https://example.com/tech-employment-2024",
       "https://example.com/healthcare-innovations",
       "https://example.com/renewable-energy-2024",
       "https://example.com/edtech-performance"] := rfl
  rw [this]
  decide

/-- Claim C5: the source list returned by `searchNewsEnhanced` never
contains two entries with the same url, provided any cached value (itself
a previous return value) had distinct urls. -/
theorem c5_no_duplicate_urls (cache : Option (List Source))
    (resp : String → String → SearchOutcome) (st0 : KeyState)
    (queries : List String) (n : Nat) (now : Int)
    (hcache : ∀ r, cache = some r → (r.map (fun s => s.url)).Nodup) :
    ((searchNewsEnhanced cache resp st0 queries n now).map
      (fun s => s.url)).Nodup := by
  unfold searchNewsEnhanced
  cases cache with
  | some r => exact hcache r rfl
  | none =>
    dsimp only
    by_cases hkeys : st0.keys.isEmpty
    · rw [if_pos hkeys]
      exact getMockSources_nodup now
    · rw [if_neg hkeys]
      cases hrun : runQueries resp queries st0 [] with
      | mockAbort => exact getMockSources_nodup now
      | done st2 arts =>
        dsimp only
        by_cases harts : arts.isEmpty
        · rw [if_pos harts]
          exact getMockSources_nodup now
        · rw [if_neg harts]
          have hnd : (arts.map (fun s => s.url)).Nodup :=
            runQueries_nodup resp queries st0 [] st2 arts (by simp) hrun
          have hperm : List.Perm ((sortArticles arts).map (fun s => s.url))
              (arts.map (fun s => s.url)) :=
            (sortArticles_perm arts).map (fun s => s.url)
          have hsorted : ((sortArticles arts).map (fun s => s.url)).Nodup :=
            hperm.nodup_iff.mpr hnd
          rw [List.map_take]
          exact hsorted.sublist (List.take_sublist n _)

/-- Witness for C5: an empty cache discharges the hypothesis. -/
theorem c5_witness :
    (∀ r : List Source, (none : Option (List Source)) = some r →
        (r.map (fun s => s.url)).Nodup)
    ∧ ((searchNewsEnhanced none (fun _ _ => .otherError) ⟨[], [], 0⟩ []
          10 0).map (fun s => s.url)).Nodup := by
  have h : ∀ r : List Source, (none : Option (List Source)) = some r →
      (r.map (fun s => s.url)).Nodup := fun r hr => by cases hr
  exact ⟨h, c5_no_duplicate_urls none (fun _ _ => .otherError) ⟨[], [], 0⟩
    [] 10 0 h⟩

theorem exists_shift (len c j : Nat) (hlen : 0 < len) (hj : j < len) :
    ∃ i, i < len ∧ (c + i) % len = j := by
  have hm : c % len < len := Nat.mod_lt _ hlen
  have hdiv : len * (c / len) + c % len = c := Nat.div_add_mod c len
  by_cases hcase : c % len ≤ j
  · refine ⟨j - c % len, by omega, ?_⟩
    have heq : c + (j - c % len) = len * (c / len) + j := by omega
    rw [heq, Nat.mul_add_mod]
    exact Nat.mod_eq_of_lt hj
  · refine ⟨len + j - c % len, by omega, ?_⟩
    have hmul : len * (c / len + 1) = len * (c / len) + len := by ring
    have heq : c + (len + j - c % len) = len * (c / len + 1) + j := by
      rw [hmul]
      omega
    rw [heq, Nat.mul_add_mod]
    exact Nat.mod_eq_of_lt hj

theorem getAvailable_spec (st : KeyState) (hne : st.keys ≠ [])
    (hnd : st.keys.Nodup) (hrlnd : st.rateLimited.Nodup)
    (hsub : st.rateLimited ⊆ st.keys)
    (hlt : st.rateLimited.length < st.keys.length) :
    ∃ key st1, getAvailableApiKey st = some (key, st1)
      ∧ key ∈ st.keys ∧ key ∉ st.rateLimited
      ∧ st1.keys = st.keys ∧ st1.rateLimited = st.rateLimited := by
  have hlen : 0 < st.keys.length := List.length_pos.mpr hne
  have hemp : st.keys.isEmpty = false := by
    rw [List.isEmpty_eq_false]
    exact hne
  have hnores : (st.rateLimited.length = st.keys.length) = False := by
    simp only [eq_iff_iff, iff_false]
    omega
  -- there is a key outside the rate-limited set
  have hex : ∃ k ∈ st.keys, k ∉ st.rateLimited := by
    by_contra hall
    push_neg at hall
    have : st.keys ⊆ st.rateLimited := fun k hk => hall k hk
    have := (List.subperm_of_subset hnd this).length_le
    omega
  obtain ⟨k, hkmem, hknot⟩ := hex
  obtain ⟨j, hjlt, hjget⟩ := List.mem_iff_getElem.mp hkmem
  obtain ⟨i, hilt, himod⟩ := exists_shift st.keys.length st.currentIdx j
    hlen hjlt
  have hpred : ∃ x ∈ List.range st.keys.length, (fun i =>
      !(st.rateLimited.contains
          (st.keys.getD ((st.currentIdx + i) % st.keys.length) ""))) x := by
    refine ⟨i, List.mem_range.mpr hilt, ?_⟩
    dsimp only
    rw [himod, List.getD_eq_getElem st.keys "" hjlt, hjget]
    simp only [Bool.not_eq_true']
    rw [← Bool.not_eq_true]
    intro hcon
    exact hknot (List.elem_iff.mp hcon)
  have hsome := List.find?_isSome.mpr hpred
  cases hfind : (List.range st.keys.length).find? (fun i =>
      !(st.rateLimited.contains
          (st.keys.getD ((st.currentIdx + i) % st.keys.length) ""))) with
  | none => rw [hfind] at hsome; simp at hsome
  | some i0 =>
    have hp0 := List.find?_some hfind
    simp only [Bool.not_eq_true'] at hp0
    have hi0 : i0 < st.keys.length :=
      List.mem_range.mp (List.mem_of_find?_eq_some hfind)
    have hklt : (st.currentIdx + i0) % st.keys.length < st.keys.length :=
      Nat.mod_lt _ hlen
    refine ⟨st.keys.getD ((st.currentIdx + i0) % st.keys.length) "",
      { st with currentIdx := (st.currentIdx + i0) % st.keys.length }, ?_,
      ?_, ?_, rfl, rfl⟩
    · unfold getAvailableApiKey
      rw [hemp]
      simp only [Bool.false_eq_true, if_false, hnores]
      rw [hfind]
    · rw [List.getD_eq_getElem st.keys "" hklt]
      exact List.getElem_mem hklt
    · intro hcon
      have hc2 : st.rateLimited.contains
          (st.keys.getD ((st.currentIdx + i0) % st.keys.length) "") = true :=
        List.elem_iff.mpr hcon
      rw [hp0] at hc2
      cases hc2

theorem tryQueryAttempts_allRL (resp : String → String → SearchOutcome)
    (hresp : ∀ q k, resp q k = .rateLimited) (q : String) :
    ∀ (a : Nat) (st : KeyState) (acc : List Source),
      st.keys ≠ [] → st.keys.Nodup → st.rateLimited.Nodup →
      st.rateLimited ⊆ st.keys →
      st.rateLimited.length < st.keys.length →
      st.keys.length - st.rateLimited.length ≤ a →
      tryQueryAttempts resp q a st acc = .mockAbort := by
  intro a
  induction a with
  | zero =>
    intro st acc _ _ _ _ hlt hbound
    omega
  | succ n ih =>
    intro st acc hne hnd hrlnd hsub hlt hbound
    obtain ⟨key, st1, hget, hkmem, hknot, hkeys, hrl⟩ :=
      getAvailable_spec st hne hnd hrlnd hsub hlt
    rw [tryQueryAttempts, hget]
    dsimp only
    rw [hresp q key]
    have hins : insertKey key st1.rateLimited = key :: st1.rateLimited := by
      unfold insertKey
      rw [if_neg]
      rw [hrl]
      exact hknot
    have hmark : (markApiKeyRateLimited key st1).rateLimited =
        key :: st.rateLimited := by
      unfold markApiKeyRateLimited
      dsimp only
      rw [hins, hrl]
    have hmkeys : (markApiKeyRateLimited key st1).keys = st.keys := by
      unfold markApiKeyRateLimited
      dsimp only
      rw [hkeys]
    by_cases hc : st.rateLimited.length + 1 < st.keys.length
    · rw [if_pos (by rw [hmark, hmkeys, List.length_cons]; omega)]
      refine ih (markApiKeyRateLimited key st1) acc ?_ ?_ ?_ ?_ ?_ ?_
      · rw [hmkeys]; exact hne
      · rw [hmkeys]; exact hnd
      · rw [hmark]
        exact List.nodup_cons.mpr ⟨hknot, hrlnd⟩
      · rw [hmark, hmkeys]
        intro x hx
        rcases List.mem_cons.mp hx with h | h
        · rw [h]; exact hkmem
        · exact hsub h
      · rw [hmark, hmkeys, List.length_cons]
        omega
      · rw [hmark, hmkeys, List.length_cons]
        omega
    · rw [if_neg (by rw [hmark, hmkeys, List.length_cons]; omega)]

/-- Claim C6: when every configured credential is rate-limited by the
external service during the run, `searchNewsEnhanced` aborts to the fixed
synthetic fallback source set, which is non-empty and whose urls are
distinct example.com urls. -/
theorem c6_rate_limit_fallback (resp : String → String → SearchOutcome)
    (st0 : KeyState) (queries : List String) (n : Nat) (now : Int)
    (hresp : ∀ q k, resp q k = .rateLimited) (hq : queries ≠ [])
    (hkeys : st0.keys ≠ []) (hnd : st0.keys.Nodup)
    (hrl : st0.rateLimited = []) :
    searchNewsEnhanced none resp st0 queries n now = getMockSources now
    ∧ getMockSources now ≠ []
    ∧ (∀ s ∈ getMockSources now,
        strStartsWith "https://example.com/" s.url = true)
    ∧ ((getMockSources now).map (fun s => s.url)).Nodup := by
  have hemp : st0.keys.isEmpty = false := by
    rw [List.isEmpty_eq_false]
    exact hkeys
  have hlen : 0 < st0.keys.length := List.length_pos.mpr hkeys
  have habort : runQueries resp queries st0 [] = .mockAbort := by
    cases queries with
    | nil => exact absurd rfl hq
    | cons q rest =>
      rw [runQueries]
      rw [tryQueryAttempts_allRL resp hresp q st0.keys.length st0 []
        hkeys hnd (by rw [hrl]; exact List.nodup_nil)
        (by rw [hrl]; intro x hx; cases hx)
        (by rw [hrl]; simpa using hlen)
        (by rw [hrl]; simp)]
  refine ⟨?_, ?_, ?_, getMockSources_nodup now⟩
  · unfold searchNewsEnhanced
    rw [hemp]
    simp only [Bool.false_eq_true, if_false, habort]
  · intro hcon
    have : (getMockSources now).length = 6 := rfl
    rw [hcon] at this
    simp at this
  · intro s hs
    simp only [getMockSources, List.mem_cons, List.not_mem_nil, or_false]
      at hs
    rcases hs with h | h | h | h | h | h <;> subst h <;> rfl

/-- Witness for C6: a single credential, a single query, and a service
that always answers 429. -/
theorem c6_witness :
    ((∀ q k : String,
        (fun (_ _ : String) => SearchOutcome.rateLimited) q k =
          .rateLimited)
      ∧ (["q"] : List String) ≠ []
      ∧ (KeyState.mk ["k1"] [] 0).keys ≠ []
      ∧ (KeyState.mk ["k1"] [] 0).keys.Nodup
      ∧ (KeyState.mk ["k1"] [] 0).rateLimited = [])
    ∧ searchNewsEnhanced none (fun _ _ => SearchOutcome.rateLimited)
        ⟨["k1"], [], 0⟩ ["q"] 12 0 = getMockSources 0 := by
  have h1 : ∀ q k : String,
      (fun (_ _ : String) => SearchOutcome.rateLimited) q k =
        .rateLimited := fun _ _ => rfl
  have h2 : (["q"] : List String) ≠ [] := by simp
  have h3 : (KeyState.mk ["k1"] [] 0).keys ≠ [] := by simp
  have h4 : (KeyState.mk ["k1"] [] 0).keys.Nodup := by simp
  have h5 : (KeyState.mk ["k1"] [] 0).rateLimited = [] := rfl
  exact ⟨⟨h1, h2, h3, h4, h5⟩,
    (c6_rate_limit_fallback (fun _ _ => SearchOutcome.rateLimited)
      ⟨["k1"], [], 0⟩ ["q"] 12 0 h1 h2 h3 h4 h5).1⟩

/-- Page type classification result (label and score). -/
structure PageType where
  label : String
  score : ℚ
deriving DecidableEq

/-- The consensus block of the analyze response. The zero-claims response
carries no source counts (server.js lines 1136-1144 versus 1210-1218). -/
structure ConsensusOut where
  summary : String
  disclaimer : String
  sources_analyzed : Option Nat
  reputable_sources : Option Nat
deriving DecidableEq

/-- The JSON body of a successful analyze response. The zero-claims
response carries no credibility score. -/
structure AnalyzeOk where
  page_type : PageType
  credibility_score : Option ℚ
  claims : List ProcessedClaim
  consensus : ConsensusOut
  sources : List Source
deriving DecidableEq

/-- An analyze HTTP response: the normal JSON body, or the 500 error
response of the catch block (server.js lines 1227-1234). -/
inductive HttpResponse where
  | ok (body : AnalyzeOk)
  | serverError (msg : String)

/-- Evidence text of one source: title, description and truncated content
joined (server.js lines 1161-1167). -/
def buildEvidenceText (s : Source) : String :=
  let parts : List String :=
    (if s.title ≠ "" then [s.title] else []) ++
    (match s.description with
     | some d => if d ≠ "" then [d] else []
     | none => []) ++
    (match s.content with
     | some c => if c ≠ "" then [c.take 200] else []
     | none => [])
  (joinSep ". " parts).trim

/-- Number of reputable sources reported in the consensus block
(server.js lines 1214-1217). -/
def countReputable (sources : List Source) : Nat :=
  (sources.filter (fun s => isReputableSource s)).length

/-- The consensus summary parts (server.js lines 1173-1191). -/
def summaryParts (resultClaims : List ProcessedClaim) : List String :=
  (match resultClaims.filter
      (fun c => c.consensus == Verdict.strongly_supported) with
   | c :: _ =>
      ["Strongly supported by multiple sources: " ++ c.text.take 100 ++ "..."]
   | [] => []) ++
  (match resultClaims.filter (fun c => c.consensus == Verdict.supported) with
   | c :: _ => ["Generally supported: " ++ c.text.take 100 ++ "..."]
   | [] => []) ++
  (match resultClaims.filter (fun c => c.consensus == Verdict.contested) with
   | c :: _ => ["Disputed claims: " ++ c.text.take 100 ++ "..."]
   | [] => []) ++
  (match resultClaims.filter (fun c => c.consensus == Verdict.refuted
      || c.consensus == Verdict.likely_false) with
   | c :: _ => ["Contradicted by sources: " ++ c.text.take 100 ++ "..."]
   | [] => [])

/-- The fixed zero-claims response body (server.js lines 1136-1144). -/
def noClaimsBody (pageType : PageType) : AnalyzeOk :=
  { page_type := pageType,
    credibility_score := none,
    claims := [],
    consensus :=
      { summary := "No verifiable factual claims found in the article.",
        disclaimer :=
          "The article may be opinion-based or lack specific factual assertions.",
        sources_analyzed := none,
        reputable_sources := none },
    sources := [] }

/-- The analyze endpoint after claim extraction
(server.js lines 1125-1235): with zero claims it short-circuits to the
fixed no-claims body; otherwise it builds and dedups queries, retrieves
sources through `search`, builds evidence texts, scores the claims and
assembles the full result. `search` and `nli` are the external retrieval
and NLI scoring behaviours; `verbsOf` and `nounsOf` the external NLP
extraction. -/
def analyzeHandler (pageType : PageType) (claimsWithEntities : List ClaimC)
    (search : List String → List Source)
    (nli : String → String → Option NliScore)
    (verbsOf nounsOf : String → List String) : HttpResponse :=
  if claimsWithEntities.isEmpty then .ok (noClaimsBody pageType)
  else
    let uniqueQueries := uniqueQueriesOf claimsWithEntities verbsOf nounsOf
    let sources := search uniqueQueries
    let evidenceTexts :=
      (sources.map buildEvidenceText).filter (fun t => t.length > 30)
    let resultClaims :=
      processClaimsInParallel nli claimsWithEntities evidenceTexts sources
    let parts := summaryParts resultClaims
    let consensusSummary :=
      if parts.isEmpty then
        "Unable to establish clear consensus from available sources."
      else joinSep " " parts
    .ok
      { page_type := pageType,
        credibility_score := some (calculateCredibilityScore resultClaims),
        claims := resultClaims,
        consensus :=
          { summary := consensusSummary,
            disclaimer :=
              "Analysis based on automated NLI and news source comparison. Results should be verified independently.",
            sources_analyzed := some sources.length,
            reputable_sources := some (countReputable sources) },
        sources := sources.take 10 }

/-- Claim C7: with zero extracted claims the analysis short-circuits to a
normal (non-error) completed result with an empty claim list, an empty
source list and the fixed explanatory summary; the result does not depend
on the retrieval or NLI oracles, so no evidence retrieval or NLI scoring
influences it. -/
theorem c7_zero_claims_short_circuit (pageType : PageType)
    (claims : List ClaimC) (search : List String → List Source)
    (nli : String → String → Option NliScore)
    (verbsOf nounsOf : String → List String) (h : claims = []) :
    analyzeHandler pageType claims search nli verbsOf nounsOf =
      .ok (noClaimsBody pageType)
    ∧ (noClaimsBody pageType).claims = []
    ∧ (noClaimsBody pageType).sources = []
    ∧ (noClaimsBody pageType).consensus.summary =
        "No verifiable factual claims found in the article."
    ∧ (noClaimsBody pageType).consensus.summary ≠ ""
    ∧ (∀ (search2 : List String → List Source)
          (nli2 : String → String → Option NliScore),
        analyzeHandler pageType claims search nli verbsOf nounsOf =
          analyzeHandler pageType claims search2 nli2 verbsOf nounsOf) := by
  subst h
  refine ⟨rfl, rfl, rfl, rfl, by simp [noClaimsBody], fun search2 nli2 => rfl⟩

/-- Witness for C7: the empty claim list. -/
theorem c7_witness :
    ([] : List ClaimC) = []
    ∧ analyzeHandler ⟨"news article", 1⟩ [] (fun _ => [])
        (fun _ _ => none) (fun _ => []) (fun _ => []) =
      .ok (noClaimsBody ⟨"news article", 1⟩) :=
  ⟨rfl, (c7_zero_claims_short_circuit ⟨"news article", 1⟩ [] (fun _ => [])
    (fun _ _ => none) (fun _ => []) (fun _ => []) rfl).1⟩
